import Mathlib

/-!
# Verification of `internal/cli/workers/render.go`

A shallow embedding of the three table builders `WorkerTable`,
`ServiceWorkerTable`, `JobsTable` and of the field renderers they call.

Conventions of the embedding.

* A Go `string` is a Lean `String`; Go compares strings byte by byte, and so
  does `stringLess`, on the UTF-8 bytes of the text.
* `int64`, `uint64` and `int` values are `Int` / `Nat`; `int` is 64 bits wide,
  so `int(x)` of an `int64` keeps the value.  The one narrowing conversion of
  the file, `int64(number)` of a `uint64`, is `toInt64`.
* A `float64` is its IEEE-754 bit pattern (`math.Float64bits`), a `Nat`.
* An `error` is `Option String`: `none` is `nil`, `some m` an error whose
  `Error()` text is `m`.
* `time.Time` is a number of nanoseconds since the Unix epoch; `time.Now()` is
  read from a clock, `clock i` being the value of the `i`-th reading of one call.
* A slice of record pointers is a `List` of records; a builder returns the
  table together with the caller's slice as the call leaves it.
* Library functions whose text is outside the file (`fatih/color`,
  `humanize.Bytes`, `humanize.RelTime`, `sort.Slice`) are the fields of `Lib`.
-/

namespace workers

/-! ## Records -/

/-- Modelled from the spec: the declaration of `process.State` (package
`pool/state/process`) is outside the repository's files. The fields are those of the
spec's worker record, under the names `render.go` reads them by: `Pid` an `int64`,
`NumExecs` and `MemoryUsage` a `uint64`, `Created` a Unix time in nanoseconds,
`CPUPercent` the bit pattern of a `float64`. -/
structure process.State where
  Pid : Int
  NumExecs : Nat
  Created : Int
  MemoryUsage : Nat
  CPUPercent : Nat
  Command : String
  StatusStr : String
deriving DecidableEq

/-- Modelled from the spec: the declaration of `jobs.State` (package
`api/v4/plugins/v4/jobs`) is outside the repository's files. The fields are those of
the spec's job-queue record, under the names `render.go` reads them by; the three
counters are `int64`. -/
structure jobs.State where
  Pipeline : String
  Driver : String
  Queue : String
  Active : Int
  Delayed : Int
  Reserved : Int
  Ready : Bool
deriving DecidableEq

/-! ## Library services -/

/-- Modelled from the spec: the colour tags of the status labels (yellow, cyan,
green, red), the foreground colours of `fatih/color` that `renderStatus` asks for. -/
inductive Color where
  | FgRed
  | FgGreen
  | FgYellow
  | FgCyan
deriving DecidableEq

/-- Library functions called by `render.go`, outside the repository's files, that
are taken as parameters:
`ColorString c s` is `color.RedString(s)`, `color.GreenString(s)`,
`color.YellowString(s)`, `color.CyanString(s)` according to `c`;
`Bytes` is `humanize.Bytes`; `RelTime` is `humanize.RelTime`;
`Slice x less` is the slice `sort.Slice(x, less)` leaves, with `less` given on
the elements compared. -/
structure Lib where
  ColorString : Color → String → String
  Bytes : Nat → String
  RelTime : Int → Int → String → String → String
  Slice : {α : Type} → List α → (α → α → Bool) → List α

/-- Modelled from the spec: `sort.Slice` is a library function; the spec has the
builders sort the snapshot in place by a fixed ascending key. The contract of
`sort.Slice`: the slice is reordered (nothing added, dropped or copied), and when
`less` is a strict weak ordering no element of the result is less than one standing
before it. The order of elements that compare equal is not fixed (the sort is not
stable). -/
def SortContract (L : Lib) : Prop :=
  (∀ {α : Type} (x : List α) (less : α → α → Bool), (L.Slice x less).Perm x) ∧
  (∀ {α : Type} (x : List α) (less : α → α → Bool),
    (∀ a b, less a b = true → less b a = false) →
    (∀ a b c, less a b = false → less b c = false → less a c = false) →
    (L.Slice x less).Pairwise (fun a b => less b a = false))

/-- Modelled from the spec: the inner loop of the library function
`insertionSortLessFunc` (package `sort`), one way of sorting in place: the element
`x` at position `j` is swapped with its predecessor while it is less than it. The
list holds the elements before `x`, the nearest first, and so does the result,
`x` included. -/
def sink {α : Type} (less : α → α → Bool) (x : α) : List α → List α
  | [] => [x]
  | p :: ps => if less x p then p :: sink less x ps else x :: p :: ps

/-- Modelled from the spec: library function `insertionSortLessFunc` of package
`sort`, the algorithm `sort.Slice` runs on a slice of at most twelve elements. -/
def insertionSortLessFunc {α : Type} (data : List α) (less : α → α → Bool) : List α :=
  (data.foldl (fun done x => sink less x done) []).reverse

/-! ## Decimal numbers -/

/-- Modelled from the spec: library function `strconv.Itoa` (and
`strconv.FormatInt(i, 10)`), which writes an integer in decimal: the decimal digits
of `i`, after a minus sign when `i` is negative. -/
def Itoa (i : Int) : String :=
  if i < 0 then "-" ++ String.mk (Nat.toDigits 10 i.natAbs)
  else String.mk (Nat.toDigits 10 i.toNat)

/-- The number a run of decimal digits denotes. -/
def digitsValue (cs : List Char) : Nat :=
  cs.foldl (fun acc c => 10 * acc + (c.toNat - 48)) 0

/-- The number a decimal numeral denotes: digits, after a minus sign or not.
It reads a cell written by `Itoa` back. -/
def numeral (s : String) : Int :=
  match s.data with
  | [] => 0
  | c :: cs =>
    if c = '-' then -((digitsValue cs : Nat) : Int) else ((digitsValue (c :: cs) : Nat) : Int)

/-- Modelled from the spec: library function `strings.Join`, the elements written
one after the other with `sep` between two neighbours. -/
def Join : List String → String → String
  | [], _ => ""
  | [a], _ => a
  | a :: b :: rest, sep => a ++ sep ++ Join (b :: rest) sep

/-- Conversion `int64(number)` of a `uint64`: the value is read as a
two's-complement 64-bit integer. -/
def toInt64 (number : Nat) : Int :=
  if number % 2 ^ 64 < 2 ^ 63 then ((number % 2 ^ 64 : Nat) : Int)
  else ((number % 2 ^ 64 : Nat) : Int) - 2 ^ 64

/-- Modelled from the spec: the `switch len(parts[j])` of the library function
`humanize.Comma`: a group of one or two digits is filled with zeros to three. -/
def pad3 (s : String) : String :=
  if s.length = 2 then "0" ++ s
  else if s.length = 1 then "00" ++ s
  else s

/-- Modelled from the spec: the loop `for v > 999` of the library function
`humanize.Comma`, which cuts groups of three digits off the right, followed by
`parts[j] = strconv.Itoa(int(v))`; the result is `parts[j:]`. The first argument is
the index `j` of the slot to fill: the array has seven slots, which is enough for
every `int64`, so the loop stops on its condition before the slots run out. -/
def commaParts : Nat → Nat → List String → List String
  | 0, v, parts => Itoa (v : Int) :: parts
  | j + 1, v, parts =>
    if v > 999 then commaParts j (v / 1000) (pad3 (Itoa ((v % 1000 : Nat) : Int)) :: parts)
    else Itoa (v : Int) :: parts

/-- Modelled from the spec: library function `humanize.Comma` (package
`dustin/go-humanize`), the spec's thousands-grouped decimal string, for an `int64`:
`math.MinInt64` is written out, a negative number is negated after its sign, and the
groups are joined with commas. -/
def Comma (v : Int) : String :=
  if v = -(2 ^ 63) then "-9,223,372,036,854,775,808"
  else
    let sign := if v < 0 then "-" else ""
    let v := if v < 0 then 0 - v else v
    sign ++ Join (commaParts 6 v.toNat []) ","

/-- Thousands grouping as the spec words it, on the digits read from the right
(the list is the reversed numeral): after every third digit that has a further
digit behind it stands a comma. -/
def groupRev : List Char → List Char
  | a :: b :: c :: d :: rest => a :: b :: c :: ',' :: groupRev (d :: rest)
  | ds => ds

/-- The thousands-grouped form of a run of digits: `1234567` becomes `1,234,567`. -/
def groupThousands (ds : List Char) : List Char :=
  (groupRev ds.reverse).reverse

/-- Modelled from the spec: the two digits after the decimal point, for a number of
hundredths below one hundred. -/
def twoDigits (n : Nat) : String :=
  String.mk [Nat.digitChar (n / 10 % 10), Nat.digitChar (n % 10)]

/-- Modelled from the spec: library function `strconv.FormatFloat(f, 'f', 2, 64)`,
the spec's fixed two-decimal-place string, on the bit pattern of `f`:
`NaN`, `+Inf`, `-Inf` for the special values; otherwise the exact value
`mant * 2^(exp - 1075)` rounded to hundredths, ties to even, written as sign,
integer part, point and two digits. -/
def FormatFloat (bits : Nat) : String :=
  let neg := decide (bits / 2 ^ 63 % 2 = 1)
  let exp := bits / 2 ^ 52 % 2 ^ 11
  let mant := bits % 2 ^ 52
  if exp = 2047 then
    if mant ≠ 0 then "NaN" else if neg then "-Inf" else "+Inf"
  else
    let m := if exp = 0 then mant else mant + 2 ^ 52
    let e := if exp = 0 then 1 else exp
    let num := m * 100 * 2 ^ (e - 1075)
    let den := 2 ^ (1075 - e)
    let q := num / den
    let r := num % den
    let n := if 2 * r < den then q else if den < 2 * r then q + 1
      else if q % 2 = 0 then q else q + 1
    (if neg then "-" else "") ++ Itoa ((n / 100 : Nat) : Int) ++ "." ++ twoDigits (n % 100)

/-- The form the spec gives the CPU cell, without a sign: one or more digits, a
point and exactly two digits, nothing before, between or after them. -/
def unsignedFixed2 (cs : List Char) : Bool :=
  match cs.reverse with
  | d2 :: d1 :: p :: ip =>
    d2.isDigit && d1.isDigit && p == '.' && !ip.isEmpty && ip.all Char.isDigit
  | _ => false

/-- The form the spec gives the CPU cell: a fixed two-decimal numeral, with a minus
sign before it or not; so no thousands separator and no unit suffix. -/
def isFixed2 (s : String) : Bool :=
  match s.data with
  | [] => false
  | c :: cs => if c = '-' then unsignedFixed2 cs else unsignedFixed2 (c :: cs)

/-! ## Field renderers -/

/-- Constant `Ready`. -/
def Ready : String := "READY"

/-- Constant `Paused`. -/
def Paused : String := "PAUSED/STOPPED"

/-- Function `renderReady`. -/
def renderReady (ready : Bool) : String :=
  if ready then Ready else Paused

/-- Function `renderCPU`. -/
def renderCPU (cpu : Nat) : String :=
  FormatFloat cpu

/-- Function `renderStatus`. -/
def renderStatus (L : Lib) (status : String) : String :=
  if status = "inactive" then L.ColorString Color.FgYellow "inactive"
  else if status = "ready" then L.ColorString Color.FgCyan "ready"
  else if status = "working" then L.ColorString Color.FgGreen "working"
  else if status = "invalid" then L.ColorString Color.FgYellow "invalid"
  else if status = "stopped" then L.ColorString Color.FgRed "stopped"
  else if status = "errored" then L.ColorString Color.FgRed "errored"
  else status

/-- Function `renderJobs`. -/
def renderJobs (number : Nat) : String :=
  Comma (toInt64 number)

/-- Function `renderAlive`; `now` is the value `time.Now()` returns. -/
def renderAlive (L : Lib) (now : Int) (t : Int) : String :=
  L.RelTime t now "ago" ""

/-! ## Tables -/

/-- Modelled from the spec: the values of `tw.State` and of `tw.Align` (package
`tablewriter/tw`) that the file names. -/
inductive Tw where
  | On
  | Off
  | AlignLeft
deriving DecidableEq

/-- Modelled from the spec: `tablewriter.Config` is a library type; these are the
fields the builders set (the spec's table-wide formatting): `Header.Formatting.AutoFormat`,
`Header.Formatting.AutoWrap` (set by `JobsTable` only, to `int(tw.Off)`), `MaxWidth`
and `Row.Alignment.Global`. -/
structure Config where
  HeaderAutoFormat : Tw
  HeaderAutoWrap : Option Tw
  MaxWidth : Nat
  RowAlignment : Tw
deriving DecidableEq

/-- Modelled from the spec: `tablewriter.Table` is a library type, the spec's
table-building collaborator. It is what the table has been given: its configuration,
the header set by `Header` and the rows passed to `Append`, oldest first. Drawing is
left to the caller. -/
structure Table where
  config : Config
  header : List String
  rows : List (List String)
deriving DecidableEq

/-- Modelled from the spec: library function `tablewriter.NewTable` with
`WithConfig(cfg)`, a table with no header and no row. -/
def NewTable (cfg : Config) : Table :=
  { config := cfg, header := [], rows := [] }

/-- Modelled from the spec: library method `Header`, which sets the header cells. -/
def Table.Header (t : Table) (cells : List String) : Table :=
  { t with header := cells }

/-- Modelled from the spec: library method `Append` with one row of cells, which
becomes the last row. -/
def Table.Append (t : Table) (row : List String) : Table :=
  { t with rows := t.rows ++ [row] }

/-- The row `WorkerTable` assembles from one record. -/
def workerRow (L : Lib) (now : Int) (w : process.State) : List String :=
  [Itoa w.Pid, renderStatus L w.StatusStr, renderJobs w.NumExecs, L.Bytes w.MemoryUsage,
    renderCPU w.CPUPercent, renderAlive L now w.Created]

/-- The row `ServiceWorkerTable` assembles from one record. -/
def serviceRow (L : Lib) (w : process.State) : List String :=
  [Itoa w.Pid, L.Bytes w.MemoryUsage, renderCPU w.CPUPercent, w.Command]

/-- The row `JobsTable` assembles from one record. -/
def jobRow (j : jobs.State) : List String :=
  [renderReady j.Ready, j.Pipeline, j.Driver, j.Queue, Itoa j.Active, Itoa j.Delayed,
    Itoa j.Reserved]

/-- The loop `for i := range workers` of `WorkerTable`, from index `i` on: each
round reads the clock once. -/
def appendWorkers (L : Lib) (clock : Nat → Int) : Nat → List process.State → Table → Table
  | _, [], t => t
  | i, w :: ws, t => appendWorkers L clock (i + 1) ws (t.Append (workerRow L (clock i) w))

/-- The loop `for i := range workers` of `ServiceWorkerTable`. -/
def appendServices (L : Lib) : List process.State → Table → Table
  | [], t => t
  | w :: ws, t => appendServices L ws (t.Append (serviceRow L w))

/-- The loop `for i := range jobs` of `JobsTable`. -/
def appendJobs : List jobs.State → Table → Table
  | [], t => t
  | j :: js, t => appendJobs js (t.Append (jobRow j))

/-- The configuration of `WorkerTable` and `ServiceWorkerTable`. -/
def workerConfig : Config :=
  { HeaderAutoFormat := Tw.On, HeaderAutoWrap := none, MaxWidth := 150, RowAlignment := Tw.AlignLeft }

/-- The configuration of `JobsTable`. -/
def jobsConfig : Config :=
  { HeaderAutoFormat := Tw.On, HeaderAutoWrap := some Tw.Off, MaxWidth := 150,
    RowAlignment := Tw.AlignLeft }

/-- The bytes of a Go string. -/
def utf8 (s : String) : List Nat :=
  (s.data.flatMap String.utf8EncodeChar).map UInt8.toNat

/-- Lexicographic comparison of two byte sequences. -/
def lexLess : List Nat → List Nat → Bool
  | _, [] => false
  | [], _ :: _ => true
  | a :: as, b :: bs => if a < b then true else if b < a then false else lexLess as bs

/-- Go's `a < b` on strings. -/
def stringLess (a b : String) : Bool :=
  lexLess (utf8 a) (utf8 b)

/-- The comparison `workers[i].Pid < workers[j].Pid`. -/
def lessPid (a b : process.State) : Bool :=
  decide (a.Pid < b.Pid)

/-- The comparison `jobs[i].Pipeline < jobs[j].Pipeline`. -/
def lessPipeline (a b : jobs.State) : Bool :=
  stringLess a.Pipeline b.Pipeline

/-- Function `WorkerTable`: the table, and the slice `workers` after the call. -/
def WorkerTable (L : Lib) (clock : Nat → Int) (workers : List process.State)
    (err : Option String) : Table × List process.State :=
  let tw := (NewTable workerConfig).Header ["PID", "Status", "Execs", "Memory", "CPU%", "Created"]
  match err with
  | some e => (tw.Append ["0", e, "ERROR", "ERROR", "ERROR", "ERROR"], workers)
  | none =>
    let workers := L.Slice workers lessPid
    (appendWorkers L clock 0 workers tw, workers)

/-- Function `ServiceWorkerTable`: the table, and the slice `workers` after the call. -/
def ServiceWorkerTable (L : Lib) (workers : List process.State) : Table × List process.State :=
  let workers := L.Slice workers lessPid
  let tw := (NewTable workerConfig).Header ["PID", "Memory", "CPU%", "Command"]
  (appendServices L workers tw, workers)

/-- Function `JobsTable`: the table, and the slice `jobs` (here `js`) after the call. -/
def JobsTable (L : Lib) (js : List jobs.State) (err : Option String) :
    Table × List jobs.State :=
  let tw := (NewTable jobsConfig).Header
    ["Status", "Pipeline", "Driver", "Queue", "Active", "Delayed", "Reserved"]
  match err with
  | some e => (tw.Append [e, "ERROR", "ERROR", "ERROR", "ERROR", "ERROR", "ERROR"], js)
  | none =>
    let js := L.Slice js lessPipeline
    (appendJobs js tw, js)

/-! ## A concrete library, for running the builders on sample inputs -/

/-- Modelled from the spec: the escape sequence `fatih/color` writes before text of
colour `c` when colours are on. -/
def ansiCode : Color → String
  | Color.FgRed => "\x1b[31m"
  | Color.FgGreen => "\x1b[32m"
  | Color.FgYellow => "\x1b[33m"
  | Color.FgCyan => "\x1b[36m"

/-- One library the builders can run with: colours as ANSI escape sequences,
`insertionSortLessFunc` for `sort.Slice`; `Bytes` and `RelTime` are plain
stand-ins (a byte count with the unit `B`, whole seconds with the label). The
theorems below hold for every `Lib` that meets `SortContract`; this one serves
to evaluate them. -/
def ansiLib : Lib :=
  { ColorString := fun c s => ansiCode c ++ s ++ "\x1b[0m"
    Bytes := fun n => Itoa (n : Int) ++ " B"
    RelTime := fun a b albl blbl =>
      if a ≤ b then Itoa ((b - a) / 1000000000) ++ " seconds " ++ albl
      else Itoa ((a - b) / 1000000000) ++ " seconds " ++ blbl
    Slice := fun data less => insertionSortLessFunc data less }

/-! ## Sorting -/

theorem sink_perm {α : Type} (less : α → α → Bool) (x : α) (l : List α) :
    (sink less x l).Perm (x :: l) := by
  induction l with
  | nil => simp [sink]
  | cons p ps ih =>
    unfold sink
    split
    · exact (List.Perm.cons p ih).trans (List.Perm.swap x p ps)
    · exact List.Perm.refl _

theorem foldl_sink_perm {α : Type} (less : α → α → Bool) (data done : List α) :
    (data.foldl (fun done x => sink less x done) done).Perm (data ++ done) := by
  induction data generalizing done with
  | nil => simp
  | cons x xs ih =>
    simp only [List.foldl_cons]
    refine (ih (sink less x done)).trans ?_
    have h := sink_perm less x done
    exact (List.Perm.append_left xs h).trans (by simp)

theorem insertionSortLessFunc_perm {α : Type} (data : List α) (less : α → α → Bool) :
    (insertionSortLessFunc data less).Perm data := by
  unfold insertionSortLessFunc
  refine (List.reverse_perm _).trans ?_
  simpa using foldl_sink_perm less data []

theorem sink_pairwise {α : Type} (less : α → α → Bool)
    (hasym : ∀ a b, less a b = true → less b a = false)
    (hneg : ∀ a b c, less a b = false → less b c = false → less a c = false)
    (x : α) (l : List α) (hl : l.Pairwise (fun a b => less a b = false)) :
    (sink less x l).Pairwise (fun a b => less a b = false) := by
  induction l with
  | nil => simp [sink]
  | cons p ps ih =>
    rw [List.pairwise_cons] at hl
    unfold sink
    split
    · rename_i hlt
      rw [List.pairwise_cons]
      refine ⟨?_, ih hl.2⟩
      intro b hb
      rcases List.mem_cons.mp ((sink_perm less x ps).mem_iff.mp hb) with h | h
      · subst h; exact hasym _ _ hlt
      · exact hl.1 b h
    · rename_i hlt
      have hxp : less x p = false := by simpa using hlt
      rw [List.pairwise_cons]
      refine ⟨?_, List.pairwise_cons.mpr hl⟩
      intro b hb
      rcases List.mem_cons.mp hb with h | h
      · subst h; exact hxp
      · exact hneg _ _ _ hxp (hl.1 b h)

theorem foldl_sink_pairwise {α : Type} (less : α → α → Bool)
    (hasym : ∀ a b, less a b = true → less b a = false)
    (hneg : ∀ a b c, less a b = false → less b c = false → less a c = false)
    (data done : List α) (hd : done.Pairwise (fun a b => less a b = false)) :
    (data.foldl (fun done x => sink less x done) done).Pairwise (fun a b => less a b = false) := by
  induction data generalizing done with
  | nil => simpa using hd
  | cons x xs ih =>
    simp only [List.foldl_cons]
    exact ih _ (sink_pairwise less hasym hneg x done hd)

theorem insertionSortLessFunc_sorted {α : Type} (data : List α) (less : α → α → Bool)
    (hasym : ∀ a b, less a b = true → less b a = false)
    (hneg : ∀ a b c, less a b = false → less b c = false → less a c = false) :
    (insertionSortLessFunc data less).Pairwise (fun a b => less b a = false) := by
  unfold insertionSortLessFunc
  rw [List.pairwise_reverse]
  exact foldl_sink_pairwise less hasym hneg data [] List.Pairwise.nil

theorem ansiLib_sortContract : SortContract ansiLib :=
  ⟨fun x less => insertionSortLessFunc_perm x less,
   fun x less hasym hneg => insertionSortLessFunc_sorted x less hasym hneg⟩

theorem lessPid_asymm (a b : process.State) : lessPid a b = true → lessPid b a = false := by
  simp only [lessPid, decide_eq_true_eq, decide_eq_false_iff_not]
  omega

theorem lessPid_negTrans (a b c : process.State) :
    lessPid a b = false → lessPid b c = false → lessPid a c = false := by
  simp only [lessPid, decide_eq_false_iff_not]
  omega

theorem lexLess_asymm (a b : List Nat) : lexLess a b = true → lexLess b a = false := by
  induction a generalizing b with
  | nil => cases b <;> simp [lexLess]
  | cons x xs ih =>
    cases b with
    | nil => simp [lexLess]
    | cons y ys =>
      simp only [lexLess]
      intro h
      split at h
      · rename_i hxy
        have h1 : ¬ y < x := by omega
        simp [h1, hxy]
      · split at h
        · simp at h
        · rename_i h1 h2
          simp [h1, h2, ih ys h]

theorem lexLess_negTrans (a b c : List Nat) :
    lexLess a b = false → lexLess b c = false → lexLess a c = false := by
  induction a generalizing b c with
  | nil =>
    cases b with
    | nil => intro _ h; exact h
    | cons y ys => simp [lexLess]
  | cons x xs ih =>
    cases b with
    | nil =>
      cases c with
      | nil => simp [lexLess]
      | cons z zs => simp [lexLess]
    | cons y ys =>
      cases c with
      | nil => simp [lexLess]
      | cons z zs =>
        simp only [lexLess]
        intro h1 h2
        split at h1
        · simp at h1
        · split at h1
          · rename_i hxy hyx
            split at h2
            · simp at h2
            · rename_i hyz
              have e1 : ¬ x < z := by omega
              have e2 : z < x := by omega
              simp [e1, e2]
          · rename_i hxy hyx
            split at h2
            · simp at h2
            · split at h2
              · rename_i hyz hzy
                have e1 : ¬ x < z := by omega
                have e2 : z < x := by omega
                simp [e1, e2]
              · rename_i hyz hzy
                have e1 : ¬ x < z := by omega
                have e2 : ¬ z < x := by omega
                simp [e1, e2, ih ys zs h1 h2]

theorem lessPipeline_asymm (a b : jobs.State) :
    lessPipeline a b = true → lessPipeline b a = false :=
  lexLess_asymm _ _

theorem lessPipeline_negTrans (a b c : jobs.State) :
    lessPipeline a b = false → lessPipeline b c = false → lessPipeline a c = false :=
  lexLess_negTrans _ _ _

/-! ## Decimal digits -/

theorem toDigitsCore_eq (n : Nat) : ∀ (fuel : Nat) (ds : List Char), n < fuel →
    Nat.toDigitsCore 10 fuel n ds = Nat.toDigits 10 n ++ ds := by
  induction n using Nat.strong_induction_on with
  | _ n ih =>
    intro fuel ds hf
    cases fuel with
    | zero => omega
    | succ f =>
      unfold Nat.toDigits
      simp only [Nat.toDigitsCore]
      by_cases h0 : n / 10 = 0
      · simp [h0]
      · simp only [h0, if_false]
        have hlt : n / 10 < n := by omega
        rw [ih (n / 10) hlt f _ (by omega), ih (n / 10) hlt n _ hlt]
        simp

theorem toDigits_lt_ten (n : Nat) (h : n < 10) : Nat.toDigits 10 n = [Nat.digitChar n] := by
  unfold Nat.toDigits
  simp only [Nat.toDigitsCore]
  have h0 : n / 10 = 0 := by omega
  have h1 : n % 10 = n := by omega
  simp [h0, h1]

theorem toDigits_ge_ten (n : Nat) (h : 10 ≤ n) :
    Nat.toDigits 10 n = Nat.toDigits 10 (n / 10) ++ [Nat.digitChar (n % 10)] := by
  have h0 : ¬ n / 10 = 0 := by omega
  conv_lhs => unfold Nat.toDigits
  simp only [Nat.toDigitsCore, h0, if_false]
  exact toDigitsCore_eq (n / 10) n _ (by omega)

theorem digitChar_toNat (d : Nat) (h : d < 10) : (Nat.digitChar d).toNat - 48 = d := by
  interval_cases d <;> decide

theorem digitChar_ne_minus (d : Nat) (h : d < 10) : Nat.digitChar d ≠ '-' := by
  interval_cases d <;> decide

theorem digitChar_ne_comma (d : Nat) (h : d < 10) : Nat.digitChar d ≠ ',' := by
  interval_cases d <;> decide

theorem toDigits_digit (n : Nat) : ∀ c ∈ Nat.toDigits 10 n, ∃ d, d < 10 ∧ c = Nat.digitChar d := by
  induction n using Nat.strong_induction_on with
  | _ n ih =>
    intro c hc
    by_cases h : n < 10
    · rw [toDigits_lt_ten n h] at hc
      exact ⟨n, h, by simpa using hc⟩
    · rw [toDigits_ge_ten n (by omega), List.mem_append] at hc
      rcases hc with hc | hc
      · exact ih (n / 10) (by omega) c hc
      · exact ⟨n % 10, by omega, by simpa using hc⟩

theorem toDigits_ne_nil (n : Nat) : Nat.toDigits 10 n ≠ [] := by
  by_cases h : n < 10
  · simp [toDigits_lt_ten n h]
  · simp [toDigits_ge_ten n (by omega)]

theorem digitsValue_append (xs : List Char) (c : Char) :
    digitsValue (xs ++ [c]) = 10 * digitsValue xs + (c.toNat - 48) := by
  simp [digitsValue, List.foldl_append]

theorem digitsValue_toDigits (n : Nat) : digitsValue (Nat.toDigits 10 n) = n := by
  induction n using Nat.strong_induction_on with
  | _ n ih =>
    by_cases h : n < 10
    · rw [toDigits_lt_ten n h]
      simp [digitsValue, digitChar_toNat n h]
    · rw [toDigits_ge_ten n (by omega), digitsValue_append, ih (n / 10) (by omega),
        digitChar_toNat _ (by omega)]
      omega

theorem numeral_Itoa (i : Int) : numeral (Itoa i) = i := by
  unfold Itoa numeral
  by_cases h : i < 0
  · simp only [h, if_true, String.data_append]
    have : ("-" : String).data = ['-'] := rfl
    simp only [this, List.singleton_append, if_true, digitsValue_toDigits]
    omega
  · simp only [h, if_false]
    cases hd : Nat.toDigits 10 i.toNat with
    | nil => exact absurd hd (toDigits_ne_nil _)
    | cons c cs =>
      have hc : c ∈ Nat.toDigits 10 i.toNat := by simp [hd]
      obtain ⟨d, hd10, rfl⟩ := toDigits_digit _ c hc
      simp only [digitChar_ne_minus d hd10, if_false]
      rw [← hd, digitsValue_toDigits]
      omega

/-! ## Thousands grouping -/

theorem groupRev_short (l : List Char) (h : l.length ≤ 3) : groupRev l = l := by
  match l, h with
  | [], _ => rfl
  | [_], _ => rfl
  | [_, _], _ => rfl
  | [_, _, _], _ => rfl
  | _ :: _ :: _ :: _ :: _, h => exact absurd h (by simp)

theorem groupThousands_short (ds : List Char) (h : ds.length ≤ 3) : groupThousands ds = ds := by
  unfold groupThousands
  rw [groupRev_short _ (by simpa using h), List.reverse_reverse]

theorem groupThousands_append (ds : List Char) (a b c : Char) (h : ds ≠ []) :
    groupThousands (ds ++ [a, b, c]) = groupThousands ds ++ ',' :: [a, b, c] := by
  unfold groupThousands
  have hr : ds.reverse ≠ [] := by simpa using h
  cases hd : ds.reverse with
  | nil => exact absurd hd hr
  | cons d rest =>
    simp [List.reverse_append, hd, groupRev]

theorem groupRev_filter (n : Nat) : ∀ l : List Char, l.length ≤ n → (∀ c ∈ l, c ≠ ',') →
    (groupRev l).filter (fun c => c ≠ ',') = l := by
  induction n with
  | zero =>
    intro l hl _
    have : l = [] := List.eq_nil_of_length_eq_zero (by omega)
    subst this; rfl
  | succ n ih =>
    intro l hl hc
    match l with
    | [] => rfl
    | [x] => simpa [groupRev] using hc
    | [x, y] => simpa [groupRev] using hc
    | [x, y, z] => simpa [groupRev] using hc
    | x :: y :: z :: d :: rest =>
      have hx := hc x (by simp)
      have hy := hc y (by simp)
      have hz := hc z (by simp)
      have ih' := ih (d :: rest) (by simp at hl ⊢; omega)
        (fun c h => hc c (by simp at h ⊢; tauto))
      simp only [groupRev]
      simpa [hx, hy, hz] using ih'

theorem groupThousands_filter (ds : List Char) (h : ∀ c ∈ ds, c ≠ ',') :
    (groupThousands ds).filter (fun c => c ≠ ',') = ds := by
  unfold groupThousands
  rw [List.filter_reverse, groupRev_filter ds.reverse.length ds.reverse (le_refl _)
    (fun c hc => h c (by simpa using hc)), List.reverse_reverse]

theorem groupRev_comma_at (n : Nat) : ∀ l : List Char, l.length ≤ n → (∀ c ∈ l, c ≠ ',') →
    ∀ i : Nat, i < (groupRev l).length → ((groupRev l)[i]? = some ',' ↔ i % 4 = 3) := by
  induction n with
  | zero =>
    intro l hl _ i hi
    have : l = [] := List.eq_nil_of_length_eq_zero (by omega)
    subst this; simp [groupRev] at hi
  | succ n ih =>
    intro l hl hc i hi
    match l with
    | [] => simp [groupRev] at hi
    | [x] =>
      have hx := hc x (by simp)
      simp only [groupRev, List.length_singleton] at hi ⊢
      have : i = 0 := by omega
      subst this; simp [hx]
    | [x, y] =>
      have hx := hc x (by simp)
      have hy := hc y (by simp)
      simp only [groupRev, List.length_cons, List.length_nil] at hi ⊢
      have : i = 0 ∨ i = 1 := by omega
      rcases this with rfl | rfl <;> simp [hx, hy]
    | [x, y, z] =>
      have hx := hc x (by simp)
      have hy := hc y (by simp)
      have hz := hc z (by simp)
      simp only [groupRev, List.length_cons, List.length_nil] at hi ⊢
      have : i = 0 ∨ i = 1 ∨ i = 2 := by omega
      rcases this with rfl | rfl | rfl <;> simp [hx, hy, hz]
    | x :: y :: z :: d :: rest =>
      have hx := hc x (by simp)
      have hy := hc y (by simp)
      have hz := hc z (by simp)
      have ih' := ih (d :: rest) (by simp at hl ⊢; omega)
        (fun c h => hc c (by simp at h ⊢; tauto))
      simp only [groupRev, List.length_cons] at hi ⊢
      match i with
      | 0 => simp [hx]
      | 1 => simp [hy]
      | 2 => simp [hz]
      | 3 => simp
      | k + 4 =>
        have hk := ih' k (by omega)
        simp only [List.getElem?_cons_succ]
        rw [hk]
        omega

theorem groupRev_getLast (n : Nat) : ∀ l : List Char, l.length ≤ n →
    (groupRev l).getLast? = l.getLast? := by
  induction n with
  | zero =>
    intro l hl
    have : l = [] := List.eq_nil_of_length_eq_zero (by omega)
    subst this; rfl
  | succ n ih =>
    intro l hl
    match l with
    | [] => rfl
    | [x] => rfl
    | [x, y] => rfl
    | [x, y, z] => rfl
    | x :: y :: z :: d :: rest =>
      have ih' := ih (d :: rest) (by simp at hl ⊢; omega)
      cases hg : groupRev (d :: rest) with
      | nil =>
        rw [hg] at ih'
        exact absurd (List.getLast?_eq_none_iff.mp ih'.symm) (by simp)
      | cons g gs =>
        rw [hg] at ih'
        simp only [groupRev, hg]
        simp only [List.getLast?_cons_cons] at ih' ⊢
        exact ih'

/-! ## `humanize.Comma` -/

theorem Itoa_ofNat (n : Nat) : Itoa ((n : Nat) : Int) = String.mk (Nat.toDigits 10 n) := by
  have h : ¬ ((n : Nat) : Int) < 0 := by omega
  simp [Itoa, h]

theorem Join_data (a : String) (parts : List String) (sep : String) :
    (Join (a :: parts) sep).data = a.data ++ parts.flatMap (fun p => sep.data ++ p.data) := by
  induction parts generalizing a with
  | nil => simp [Join]
  | cons b rest ih => simp [Join, ih, String.data_append]

theorem toDigits_thousand (v : Nat) (h : 999 < v) :
    Nat.toDigits 10 v = Nat.toDigits 10 (v / 1000) ++
      [Nat.digitChar (v / 100 % 10), Nat.digitChar (v / 10 % 10), Nat.digitChar (v % 10)] := by
  rw [toDigits_ge_ten v (by omega), toDigits_ge_ten (v / 10) (by omega),
    toDigits_ge_ten (v / 10 / 10) (by omega)]
  have e1 : v / 10 / 10 / 10 = v / 1000 := by omega
  have e2 : v / 10 / 10 % 10 = v / 100 % 10 := by omega
  simp [e1, e2]

theorem pad3_group (v : Nat) :
    (pad3 (Itoa ((v % 1000 : Nat) : Int))).data =
      [Nat.digitChar (v / 100 % 10), Nat.digitChar (v / 10 % 10), Nat.digitChar (v % 10)] := by
  rw [Itoa_ofNat]
  by_cases h1 : v % 1000 < 10
  · have e1 : v / 100 % 10 = 0 := by omega
    have e2 : v / 10 % 10 = 0 := by omega
    have e3 : v % 1000 = v % 10 := by omega
    rw [toDigits_lt_ten _ h1, e1, e2, e3]
    rfl
  · by_cases h2 : v % 1000 < 100
    · have e1 : v / 100 % 10 = 0 := by omega
      have e2 : v % 1000 / 10 = v / 10 % 10 := by omega
      have e3 : v % 1000 % 10 = v % 10 := by omega
      rw [toDigits_ge_ten _ (by omega), toDigits_lt_ten _ (by omega), e1, e2, e3]
      rfl
    · have e1 : v % 1000 / 10 / 10 = v / 100 % 10 := by omega
      have e2 : v % 1000 / 10 % 10 = v / 10 % 10 := by omega
      have e3 : v % 1000 % 10 = v % 10 := by omega
      rw [toDigits_ge_ten _ (by omega), toDigits_ge_ten _ (by omega),
        toDigits_lt_ten _ (by omega), e1, e2, e3]
      rfl

theorem toDigits_length_le (v : Nat) (h : v ≤ 999) : (Nat.toDigits 10 v).length ≤ 3 := by
  by_cases h1 : v < 10
  · simp [toDigits_lt_ten v h1]
  · by_cases h2 : v < 100
    · simp [toDigits_ge_ten v (by omega), toDigits_lt_ten (v / 10) (by omega)]
    · simp [toDigits_ge_ten v (by omega), toDigits_ge_ten (v / 10) (by omega),
        toDigits_lt_ten (v / 10 / 10) (by omega)]

theorem commaParts_data (j : Nat) : ∀ (v : Nat) (parts : List String), v < 1000 ^ (j + 1) →
    (Join (commaParts j v parts) ",").data =
      groupThousands (Nat.toDigits 10 v) ++ parts.flatMap (fun p => ',' :: p.data) := by
  have hsep : (",": String).data = [','] := rfl
  induction j with
  | zero =>
    intro v parts hv
    simp only [commaParts, Join_data, Itoa_ofNat, hsep, List.singleton_append]
    rw [groupThousands_short _ (toDigits_length_le v (by omega))]
  | succ j ih =>
    intro v parts hv
    unfold commaParts
    by_cases h : v > 999
    · simp only [h, if_true]
      rw [ih (v / 1000) _ (by
        have : 1000 ^ (j + 1 + 1) = 1000 ^ (j + 1) * 1000 := by ring
        rw [this] at hv
        exact Nat.div_lt_of_lt_mul (by rwa [Nat.mul_comm] at hv))]
      rw [toDigits_thousand v h, groupThousands_append _ _ _ _ (toDigits_ne_nil _),
        List.flatMap_cons, pad3_group]
      simp
    · simp only [h, if_false, Join_data, Itoa_ofNat, hsep, List.singleton_append]
      rw [groupThousands_short _ (toDigits_length_le v (by omega))]

theorem toInt64_small (n : Nat) (h : n < 2 ^ 63) : toInt64 n = (n : Int) := by
  have h1 : n % 2 ^ 64 = n := Nat.mod_eq_of_lt (by omega)
  unfold toInt64
  rw [h1, if_pos h]

theorem renderJobs_data (n : Nat) (h : n < 2 ^ 63) :
    (renderJobs n).data = groupThousands (Nat.toDigits 10 n) := by
  have h1 : ¬ ((n : Nat) : Int) = -(2 ^ 63) := by omega
  have h2 : ¬ ((n : Nat) : Int) < 0 := by omega
  have h3 : n < 1000 ^ (6 + 1) := by
    have : (2 : Nat) ^ 63 < 1000 ^ (6 + 1) := by norm_num
    omega
  unfold renderJobs Comma
  rw [toInt64_small n h]
  simp only [h1, h2, if_false, Int.toNat_ofNat, String.data_append]
  rw [commaParts_data 6 n [] h3]
  simp

theorem toDigits_no_comma (n : Nat) : ∀ c ∈ Nat.toDigits 10 n, c ≠ ',' := by
  intro c hc
  obtain ⟨d, hd, rfl⟩ := toDigits_digit n c hc
  exact digitChar_ne_comma d hd

theorem perm_pair_sorted {α : Type} (R : α → α → Prop) (x y : α) (l : List α)
    (hp : l.Perm [x, y]) (hs : l.Pairwise R) (hxy : ¬ R x y) : l = [y, x] := by
  have hlen := hp.length_eq
  match l, hlen with
  | [p, q], _ =>
    have hx : x ∈ [p, q] := hp.mem_iff.mpr (by simp)
    rcases List.mem_cons.mp hx with h | h
    · subst h
      have h2 : [q].Perm [y] := (List.perm_cons x).mp hp
      have h3 : q = y := by simpa using h2.mem_iff.mp (by simp : q ∈ [q])
      subst h3
      exact absurd (List.pairwise_cons.mp hs).1 (by simpa using hxy)
    · have h1 : x = q := by simpa using h
      subst h1
      have h2 : [p].Perm [y] := (List.perm_cons x).mp ((List.Perm.swap p x []).trans hp)
      have h3 : p = y := by simpa using h2.mem_iff.mp (by simp : p ∈ [p])
      subst h3
      rfl


/-! ## Rows appended by the loops -/

theorem appendWorkers_rows (L : Lib) (clock : Nat → Int) (ws : List process.State) :
    ∀ (i : Nat) (t : Table), (appendWorkers L clock i ws t).rows =
      t.rows ++ (ws.enumFrom i).map (fun p => workerRow L (clock p.1) p.2) := by
  induction ws with
  | nil => intro i t; simp [appendWorkers]
  | cons w ws ih => intro i t; simp [appendWorkers, ih, Table.Append]

theorem appendServices_rows (L : Lib) (ws : List process.State) :
    ∀ t : Table, (appendServices L ws t).rows = t.rows ++ ws.map (serviceRow L) := by
  induction ws with
  | nil => intro t; simp [appendServices]
  | cons w ws ih => intro t; simp [appendServices, ih, Table.Append]

theorem appendJobs_rows (js : List jobs.State) :
    ∀ t : Table, (appendJobs js t).rows = t.rows ++ js.map jobRow := by
  induction js with
  | nil => intro t; simp [appendJobs]
  | cons j js ih => intro t; simp [appendJobs, ih, Table.Append]

theorem appendWorkers_header (L : Lib) (clock : Nat → Int) (ws : List process.State) :
    ∀ (i : Nat) (t : Table), (appendWorkers L clock i ws t).header = t.header ∧
      (appendWorkers L clock i ws t).config = t.config := by
  induction ws with
  | nil => intro i t; simp [appendWorkers]
  | cons w ws ih => intro i t; simp [appendWorkers, ih, Table.Append]

theorem appendServices_header (L : Lib) (ws : List process.State) :
    ∀ t : Table, (appendServices L ws t).header = t.header ∧
      (appendServices L ws t).config = t.config := by
  induction ws with
  | nil => intro t; simp [appendServices]
  | cons w ws ih => intro t; simp [appendServices, ih, Table.Append]

theorem appendJobs_header (js : List jobs.State) :
    ∀ t : Table, (appendJobs js t).header = t.header ∧ (appendJobs js t).config = t.config := by
  induction js with
  | nil => intro t; simp [appendJobs]
  | cons j js ih => intro t; simp [appendJobs, ih, Table.Append]

theorem WorkerTable_rows (L : Lib) (clock : Nat → Int) (workers : List process.State) :
    (WorkerTable L clock workers none).1.rows =
      ((L.Slice workers lessPid).enumFrom 0).map (fun p => workerRow L (clock p.1) p.2) := by
  simp [WorkerTable, appendWorkers_rows, NewTable, Table.Header]

theorem WorkerTable_row_at (L : Lib) (clock : Nat → Int) (workers : List process.State) (i : Nat) :
    (WorkerTable L clock workers none).1.rows[i]? =
      (L.Slice workers lessPid)[i]?.map (fun w => workerRow L (clock i) w) := by
  rw [WorkerTable_rows, List.getElem?_map, List.getElem?_enumFrom]
  cases (L.Slice workers lessPid)[i]? <;> simp

theorem WorkerTable_pidCells (L : Lib) (clock : Nat → Int) (workers : List process.State) :
    (WorkerTable L clock workers none).1.rows.map (fun r => r.headD "") =
      (L.Slice workers lessPid).map (fun w => Itoa w.Pid) := by
  rw [WorkerTable_rows, List.map_map]
  have h : ((fun r : List String => r.headD "") ∘
      fun p : Nat × process.State => workerRow L (clock p.1) p.2) =
      (fun w : process.State => Itoa w.Pid) ∘ Prod.snd := by
    funext p; simp [workerRow]
  rw [h, ← List.map_map, List.enumFrom_map_snd]

theorem ServiceWorkerTable_rows_eq (L : Lib) (workers : List process.State) :
    (ServiceWorkerTable L workers).1.rows = (L.Slice workers lessPid).map (serviceRow L) := by
  simp [ServiceWorkerTable, appendServices_rows, NewTable, Table.Header]

theorem JobsTable_rows_eq (L : Lib) (js : List jobs.State) :
    (JobsTable L js none).1.rows = (L.Slice js lessPipeline).map jobRow := by
  simp [JobsTable, appendJobs_rows, NewTable, Table.Header]

theorem sorted_pids (L : Lib) (hL : SortContract L) (workers : List process.State) :
    ((L.Slice workers lessPid).map (fun w => w.Pid)).Pairwise (fun a b => a ≤ b) := by
  rw [List.pairwise_map]
  refine (hL.2 workers lessPid lessPid_asymm lessPid_negTrans).imp ?_
  intro a b h
  simp only [lessPid, decide_eq_false_iff_not] at h
  omega

theorem sorted_pipelines (L : Lib) (hL : SortContract L) (js : List jobs.State) :
    ((L.Slice js lessPipeline).map (fun j => j.Pipeline)).Pairwise
      (fun a b => stringLess b a = false) := by
  rw [List.pairwise_map]
  exact (hL.2 js lessPipeline lessPipeline_asymm lessPipeline_negTrans).imp (fun h => h)

/-! ## The CPU cell -/

theorem digitChar_isDigit (d : Nat) (h : d < 10) : (Nat.digitChar d).isDigit = true := by
  interval_cases d <;> decide

theorem toDigits_all_isDigit (n : Nat) : (Nat.toDigits 10 n).all Char.isDigit = true := by
  rw [List.all_eq_true]
  intro c hc
  obtain ⟨d, hd, rfl⟩ := toDigits_digit n c hc
  exact digitChar_isDigit d hd

theorem unsignedFixed2_digits (ds : List Char) (a b : Nat) (hne : ds ≠ [])
    (hds : ds.all Char.isDigit = true) (ha : a < 10) (hb : b < 10) :
    unsignedFixed2 (ds ++ '.' :: [Nat.digitChar a, Nat.digitChar b]) = true := by
  have hrev : (ds ++ '.' :: [Nat.digitChar a, Nat.digitChar b]).reverse =
      Nat.digitChar b :: Nat.digitChar a :: '.' :: ds.reverse := by simp
  have hne' : ds.reverse.isEmpty = false := by
    cases ds with
    | nil => exact absurd rfl hne
    | cons x xs => simp
  have hall : ds.reverse.all Char.isDigit = true := by
    rw [List.all_eq_true] at hds ⊢
    intro c hc
    exact hds c (by simpa using hc)
  unfold unsignedFixed2
  rw [hrev]
  simp [digitChar_isDigit a ha, digitChar_isDigit b hb, hne', hall]

theorem FormatFloat_finite (bits : Nat) (h : bits / 2 ^ 52 % 2 ^ 11 ≠ 2047) :
    ∃ (neg : Bool) (n : Nat), FormatFloat bits =
      (if neg = true then "-" else "") ++ Itoa ((n / 100 : Nat) : Int) ++ "." ++
        twoDigits (n % 100) := by
  unfold FormatFloat
  simp only [h, if_false]
  exact ⟨_, _, rfl⟩

theorem fixed2_data (neg : Bool) (n : Nat) :
    isFixed2 ((if neg = true then "-" else "") ++ Itoa ((n / 100 : Nat) : Int) ++ "." ++
      twoDigits (n % 100)) = true := by
  have hu := unsignedFixed2_digits (Nat.toDigits 10 (n / 100)) (n % 100 / 10 % 10) (n % 100 % 10)
    (toDigits_ne_nil _) (toDigits_all_isDigit _) (by omega) (by omega)
  have hp : (".": String).data = ['.'] := rfl
  have hm : ("-": String).data = ['-'] := rfl
  have he : ("": String).data = [] := rfl
  unfold isFixed2
  rw [Itoa_ofNat]
  cases neg with
  | true =>
    simp only [if_true, String.data_append, hm, hp, twoDigits, List.singleton_append,
      List.cons_append, List.nil_append]
    simpa using hu
  | false =>
    simp only [Bool.false_eq_true, if_false, String.data_append, he, hp, twoDigits,
      List.nil_append]
    cases hd : Nat.toDigits 10 (n / 100) with
    | nil => exact absurd hd (toDigits_ne_nil _)
    | cons c cs =>
      have hc : c ∈ Nat.toDigits 10 (n / 100) := by simp [hd]
      obtain ⟨d, hd10, rfl⟩ := toDigits_digit _ c hc
      rw [hd] at hu
      simp only [List.cons_append, digitChar_ne_minus d hd10, if_false]
      simpa using hu

set_option exponentiation.threshold 1100 in
theorem renderCPU_zero : renderCPU 0 = "0.00" := by
  decide

/-! ## The sorted slice of records with distinct identifiers -/

theorem slice_pid_unique (L : Lib) (hL : SortContract L) (ws1 ws2 : List process.State)
    (hp : ws1.Perm ws2) (hd : (ws1.map (fun w => w.Pid)).Nodup) :
    L.Slice ws1 lessPid = L.Slice ws2 lessPid := by
  have p1 := hL.1 ws1 lessPid
  have p2 := hL.1 ws2 lessPid
  have n1 : ((L.Slice ws1 lessPid).map (fun w => w.Pid)).Nodup :=
    ((p1.map _).nodup_iff).mpr hd
  have n2 : ((L.Slice ws2 lessPid).map (fun w => w.Pid)).Nodup :=
    (((p2.trans hp.symm).map _).nodup_iff).mpr hd
  have s1 : (L.Slice ws1 lessPid).Pairwise (fun a b => a.Pid < b.Pid) :=
    List.pairwise_map.mp (List.Sorted.lt_of_le (sorted_pids L hL ws1) n1)
  have s2 : (L.Slice ws2 lessPid).Pairwise (fun a b => a.Pid < b.Pid) :=
    List.pairwise_map.mp (List.Sorted.lt_of_le (sorted_pids L hL ws2) n2)
  have anti : IsAntisymm process.State (fun a b => a.Pid < b.Pid) :=
    ⟨fun a b h1 h2 => absurd h1 (by omega)⟩
  exact List.eq_of_perm_of_sorted (p1.trans (hp.trans p2.symm)) s1 s2

theorem slice_nil (L : Lib) (hL : SortContract L) {α : Type} (less : α → α → Bool) :
    L.Slice ([] : List α) less = [] :=
  List.Perm.eq_nil (hL.1 [] less)

/-! ## The claims -/

/-- C1. With no error, `WorkerTable` appends as many rows as there are records;
the PID cells, read top to bottom as numbers, are in ascending order and are the
process identifiers of the records (each cell is `Itoa` of the identifier of the
record at that place of the sorted slice). -/
theorem WorkerTable_rows_ascending (L : Lib) (hL : SortContract L) (clock : Nat → Int)
    (workers : List process.State) :
    (WorkerTable L clock workers none).1.rows.length = workers.length ∧
    ((WorkerTable L clock workers none).1.rows.map (fun r => numeral (r.headD ""))).Pairwise
      (fun a b => a ≤ b) ∧
    ((WorkerTable L clock workers none).1.rows.map (fun r => numeral (r.headD ""))).Perm
      (workers.map (fun w => w.Pid)) ∧
    (WorkerTable L clock workers none).1.rows.map (fun r => r.headD "") =
      (WorkerTable L clock workers none).2.map (fun w => Itoa w.Pid) := by
  have hcells := WorkerTable_pidCells L clock workers
  have hnum : (WorkerTable L clock workers none).1.rows.map (fun r => numeral (r.headD "")) =
      (L.Slice workers lessPid).map (fun w => w.Pid) := by
    have := congrArg (List.map numeral) hcells
    simpa [List.map_map, Function.comp_def, numeral_Itoa] using this
  refine ⟨?_, ?_, ?_, hcells⟩
  · have := congrArg List.length hcells
    simpa [(hL.1 workers lessPid).length_eq] using this
  · rw [hnum]; exact sorted_pids L hL workers
  · rw [hnum]; exact (hL.1 workers lessPid).map _

/-- Witness of C1: two records given in descending order of identifier. -/
theorem WorkerTable_rows_ascending_witness :
    (WorkerTable ansiLib (fun _ => 0)
      [⟨42, 1500, 0, 0, 0, "", "working"⟩, ⟨7, 0, 0, 0, 0, "", "ready"⟩] none).1.rows.map
        (fun r => r.headD "") = ["7", "42"] ∧
    (WorkerTable ansiLib (fun _ => 0)
      [⟨42, 1500, 0, 0, 0, "", "working"⟩, ⟨7, 0, 0, 0, 0, "", "ready"⟩] none).1.rows.length = 2 :=
  ⟨by decide, (WorkerTable_rows_ascending ansiLib ansiLib_sortContract (fun _ => 0)
      [⟨42, 1500, 0, 0, 0, "", "working"⟩, ⟨7, 0, 0, 0, 0, "", "ready"⟩]).1⟩

/-- C2, as the code has it. With an error, `WorkerTable` appends exactly one row of
six cells, as many as the header has: the first cell is the literal `0`, the second
is the error's message text and each of the remaining four is `ERROR`. -/
theorem WorkerTable_error_row (L : Lib) (clock : Nat → Int) (workers : List process.State)
    (e : String) :
    (WorkerTable L clock workers (some e)).1.rows =
      [["0", e, "ERROR", "ERROR", "ERROR", "ERROR"]] ∧
    (WorkerTable L clock workers (some e)).1.header =
      ["PID", "Status", "Execs", "Memory", "CPU%", "Created"] ∧
    (∀ r ∈ (WorkerTable L clock workers (some e)).1.rows,
      r.length = (WorkerTable L clock workers (some e)).1.header.length ∧ r.length = 6) := by
  simp [WorkerTable, NewTable, Table.Header, Table.Append]

/-- C2 fails as stated: for the error `connection refused` the row of `WorkerTable`
starts with `0`, not with the message, and its second cell is not `ERROR`. -/
theorem WorkerTable_error_row_counterexample :
    (WorkerTable ansiLib (fun _ => 0) [] (some "connection refused")).1.rows =
      [["0", "connection refused", "ERROR", "ERROR", "ERROR", "ERROR"]] ∧
    ¬ ((WorkerTable ansiLib (fun _ => 0) [] (some "connection refused")).1.rows.map
        (fun r => r.headD "") = ["connection refused"]) ∧
    ¬ (∀ r ∈ (WorkerTable ansiLib (fun _ => 0) [] (some "connection refused")).1.rows,
        ∀ c ∈ r.tail, c = "ERROR") := by
  decide

/-- C3. With an error, `JobsTable` appends exactly one row of seven cells, the
message text first and `ERROR` in the six others, whatever records it is given;
for the empty snapshot and `connection refused` it is the row of the example. -/
theorem JobsTable_error_row (L : Lib) (js js' : List jobs.State) (e : String) :
    (JobsTable L js (some e)).1.rows =
      [[e, "ERROR", "ERROR", "ERROR", "ERROR", "ERROR", "ERROR"]] ∧
    (∀ r ∈ (JobsTable L js (some e)).1.rows, r.length = 7 ∧ r.head? = some e ∧
      r.tail = List.replicate 6 "ERROR") ∧
    (JobsTable L js (some e)).1.rows = (JobsTable L js' (some e)).1.rows ∧
    (JobsTable L [] (some "connection refused")).1.rows =
      [["connection refused", "ERROR", "ERROR", "ERROR", "ERROR", "ERROR", "ERROR"]] ∧
    (JobsTable L [] (some "connection refused")).1.header =
      ["Status", "Pipeline", "Driver", "Queue", "Active", "Delayed", "Reserved"] := by
  simp [JobsTable, NewTable, Table.Header, Table.Append, List.replicate]

/-- C4. With no error, `JobsTable` appends one row per record; the Pipeline cells
(the second of each row) are the pipeline names of the records, and read top to
bottom none is less, in the byte-wise lexicographic order, than one above it. -/
theorem JobsTable_rows_ascending (L : Lib) (hL : SortContract L) (js : List jobs.State) :
    (JobsTable L js none).1.rows.length = js.length ∧
    ((JobsTable L js none).1.rows.map (fun r => r.getD 1 "")).Pairwise
      (fun a b => stringLess b a = false) ∧
    ((JobsTable L js none).1.rows.map (fun r => r.getD 1 "")).Perm
      (js.map (fun j => j.Pipeline)) ∧
    (JobsTable L js none).1.rows.map (fun r => r[1]?) =
      (JobsTable L js none).2.map (fun j => some j.Pipeline) := by
  have hcells : (JobsTable L js none).1.rows.map (fun r => r.getD 1 "") =
      (L.Slice js lessPipeline).map (fun j => j.Pipeline) := by
    rw [JobsTable_rows_eq, List.map_map]
    rfl
  refine ⟨?_, ?_, ?_, ?_⟩
  · rw [JobsTable_rows_eq, List.length_map, (hL.1 js lessPipeline).length_eq]
  · rw [hcells]; exact sorted_pipelines L hL js
  · rw [hcells]; exact (hL.1 js lessPipeline).map _
  · rw [JobsTable_rows_eq, List.map_map]
    rfl

/-- Witness of C4: three queues, two of them with the same pipeline name. -/
theorem JobsTable_rows_ascending_witness :
    (JobsTable ansiLib [⟨"emails", "amqp", "q1", 1, 0, 0, true⟩,
      ⟨"billing", "sqs", "q2", 0, 0, 0, false⟩, ⟨"emails", "memory", "q3", 0, 2, 0, true⟩]
      none).1.rows.map (fun r => r.getD 1 "") = ["billing", "emails", "emails"] ∧
    (JobsTable ansiLib [⟨"emails", "amqp", "q1", 1, 0, 0, true⟩,
      ⟨"billing", "sqs", "q2", 0, 0, 0, false⟩, ⟨"emails", "memory", "q3", 0, 2, 0, true⟩]
      none).1.rows.length = 3 :=
  ⟨by decide, (JobsTable_rows_ascending ansiLib ansiLib_sortContract
    [⟨"emails", "amqp", "q1", 1, 0, 0, true⟩, ⟨"billing", "sqs", "q2", 0, 0, 0, false⟩,
      ⟨"emails", "memory", "q3", 0, 2, 0, true⟩]).1⟩

/-- C5. `renderStatus` gives each of the six known statuses its own text in its
colour (inactive yellow, ready cyan, working green, invalid yellow, stopped red,
errored red) and returns every other string as it is, the empty string and `READY`
among them. -/
theorem renderStatus_total (L : Lib) :
    renderStatus L "inactive" = L.ColorString Color.FgYellow "inactive" ∧
    renderStatus L "ready" = L.ColorString Color.FgCyan "ready" ∧
    renderStatus L "working" = L.ColorString Color.FgGreen "working" ∧
    renderStatus L "invalid" = L.ColorString Color.FgYellow "invalid" ∧
    renderStatus L "stopped" = L.ColorString Color.FgRed "stopped" ∧
    renderStatus L "errored" = L.ColorString Color.FgRed "errored" ∧
    (∀ s : String, s ∉ ["inactive", "ready", "working", "invalid", "stopped", "errored"] →
      renderStatus L s = s) ∧
    renderStatus L "" = "" ∧ renderStatus L "READY" = "READY" := by
  refine ⟨by simp [renderStatus], by simp [renderStatus], by simp [renderStatus],
    by simp [renderStatus], by simp [renderStatus], by simp [renderStatus], ?_,
    by simp [renderStatus], by simp [renderStatus]⟩
  intro s hs
  simp only [List.mem_cons, List.mem_singleton, List.not_mem_nil, or_false, not_or] at hs
  obtain ⟨h1, h2, h3, h4, h5, h6⟩ := hs
  simp [renderStatus, h1, h2, h3, h4, h5, h6]

/-- C6, as the code has it. For every execution count below 2^63, `renderJobs`
gives the thousands-grouped decimal numeral of the count: removing the commas leaves
exactly the decimal digits; counted from the right, the characters at the places
3, 7, 11, ... and no others are commas; the numeral does not begin with a comma; it
is `groupThousands` of the digits. 1500 gives `1,500`, 1234567 gives `1,234,567`. -/
theorem renderJobs_grouped (n : Nat) (h : n < 2 ^ 63) :
    (renderJobs n).data.filter (fun c => c ≠ ',') = (Itoa (n : Int)).data ∧
    (∀ i : Nat, i < (renderJobs n).data.length →
      ((renderJobs n).data.reverse[i]? = some ',' ↔ i % 4 = 3)) ∧
    (renderJobs n).data.head? ≠ some ',' ∧
    renderJobs n = String.mk (groupThousands (Nat.toDigits 10 n)) ∧
    renderJobs 1500 = "1,500" ∧ renderJobs 1234567 = "1,234,567" := by
  have hd := renderJobs_data n h
  have hnc := toDigits_no_comma n
  have hrev : (renderJobs n).data.reverse = groupRev (Nat.toDigits 10 n).reverse := by
    rw [hd]; simp [groupThousands]
  have hncr : ∀ c ∈ (Nat.toDigits 10 n).reverse, c ≠ ',' :=
    fun c hc => hnc c (by simpa using hc)
  refine ⟨?_, ?_, ?_, ?_, by decide, by decide⟩
  · rw [hd, groupThousands_filter _ hnc, Itoa_ofNat]
  · intro i hi
    rw [hrev]
    refine groupRev_comma_at _ _ (le_refl _) hncr i ?_
    rw [← hrev]; simpa using hi
  · have h1 : (renderJobs n).data.head? = (renderJobs n).data.reverse.getLast? := by simp
    rw [h1, hrev, groupRev_getLast _ _ (le_refl _), List.getLast?_reverse]
    cases hdg : Nat.toDigits 10 n with
    | nil => simp
    | cons c cs =>
      have := hnc c (by simp [hdg])
      simpa using this
  · exact String.ext hd

/-- Witness of C6 at the count 1234567. -/
theorem renderJobs_grouped_witness :
    1234567 < 2 ^ 63 ∧
    (renderJobs 1234567).data.filter (fun c => c ≠ ',') = (Itoa 1234567).data :=
  ⟨by decide, (renderJobs_grouped 1234567 (by decide)).1⟩

/-- C6 fails as stated: the count 18446744073709551615, the largest of the unsigned
64-bit range, is rendered as `-1`, which without commas is not the decimal numeral
of the count. -/
theorem renderJobs_counterexample :
    18446744073709551615 < 2 ^ 64 ∧
    renderJobs 18446744073709551615 = "-1" ∧
    (renderJobs 18446744073709551615).data.filter (fun c => c ≠ ',') ≠
      (Itoa 18446744073709551615).data := by
  decide

/-- C7. After a call with no error the caller's slice is a reordering of what it
held, ascending by the sort key (process identifier; pipeline name for
`JobsTable`), and the row at each index is the row assembled from the record at that
index of the slice as the call leaves it. -/
theorem builders_sort_in_place (L : Lib) (hL : SortContract L) (clock : Nat → Int)
    (workers : List process.State) (js : List jobs.State) :
    ((WorkerTable L clock workers none).2.Perm workers ∧
      ((WorkerTable L clock workers none).2.map (fun w => w.Pid)).Pairwise (fun a b => a ≤ b) ∧
      (WorkerTable L clock workers none).1.rows.length = workers.length ∧
      ∀ i : Nat, (WorkerTable L clock workers none).1.rows[i]? =
        (WorkerTable L clock workers none).2[i]?.map (fun w => workerRow L (clock i) w)) ∧
    ((ServiceWorkerTable L workers).2.Perm workers ∧
      ((ServiceWorkerTable L workers).2.map (fun w => w.Pid)).Pairwise (fun a b => a ≤ b) ∧
      (ServiceWorkerTable L workers).1.rows.length = workers.length ∧
      ∀ i : Nat, (ServiceWorkerTable L workers).1.rows[i]? =
        (ServiceWorkerTable L workers).2[i]?.map (fun w => serviceRow L w)) ∧
    ((JobsTable L js none).2.Perm js ∧
      ((JobsTable L js none).2.map (fun j => j.Pipeline)).Pairwise
        (fun a b => stringLess b a = false) ∧
      (JobsTable L js none).1.rows.length = js.length ∧
      ∀ i : Nat, (JobsTable L js none).1.rows[i]? =
        (JobsTable L js none).2[i]?.map (fun j => jobRow j)) := by
  refine ⟨⟨hL.1 workers lessPid, sorted_pids L hL workers, ?_, ?_⟩,
    ⟨hL.1 workers lessPid, sorted_pids L hL workers, ?_, ?_⟩,
    ⟨hL.1 js lessPipeline, sorted_pipelines L hL js, ?_, ?_⟩⟩
  · rw [WorkerTable_rows, List.length_map, List.enumFrom_length, (hL.1 workers lessPid).length_eq]
  · intro i; exact WorkerTable_row_at L clock workers i
  · rw [ServiceWorkerTable_rows_eq, List.length_map, (hL.1 workers lessPid).length_eq]
  · intro i; rw [ServiceWorkerTable_rows_eq, List.getElem?_map]; rfl
  · rw [JobsTable_rows_eq, List.length_map, (hL.1 js lessPipeline).length_eq]
  · intro i; rw [JobsTable_rows_eq, List.getElem?_map]; rfl

/-- Witness of C7: the slices the three builders leave for two workers and two
queues given in descending order. -/
theorem builders_sort_in_place_witness :
    (WorkerTable ansiLib (fun _ => 0)
      [⟨42, 1500, 0, 0, 0, "", "working"⟩, ⟨7, 0, 0, 0, 0, "", "ready"⟩] none).2 =
      [⟨7, 0, 0, 0, 0, "", "ready"⟩, ⟨42, 1500, 0, 0, 0, "", "working"⟩] ∧
    (JobsTable ansiLib [⟨"emails", "amqp", "q1", 1, 0, 0, true⟩,
      ⟨"billing", "sqs", "q2", 0, 0, 0, false⟩] none).2 =
      [⟨"billing", "sqs", "q2", 0, 0, 0, false⟩, ⟨"emails", "amqp", "q1", 1, 0, 0, true⟩] ∧
    (ServiceWorkerTable ansiLib
      [⟨42, 1500, 0, 0, 0, "php worker.php", ""⟩, ⟨7, 0, 0, 0, 0, "sleep 5", ""⟩]).1.rows.length =
      2 :=
  ⟨by decide, by decide, (builders_sort_in_place ansiLib ansiLib_sortContract (fun _ => 0)
    [⟨42, 1500, 0, 0, 0, "php worker.php", ""⟩, ⟨7, 0, 0, 0, 0, "sleep 5", ""⟩] []).2.1.2.2.1⟩

/-- C8. With an error, `WorkerTable` and `JobsTable` leave the caller's slice as it
was, and the table they build is the same whatever the records, the library
renderers and the clock are: nothing rendered from a record enters it. -/
theorem error_path_skips_records (L L' : Lib) (clock clock' : Nat → Int)
    (workers workers' : List process.State) (js js' : List jobs.State) (e : String) :
    (WorkerTable L clock workers (some e)).2 = workers ∧
    (JobsTable L js (some e)).2 = js ∧
    (WorkerTable L clock workers (some e)).1 = (WorkerTable L' clock' workers' (some e)).1 ∧
    (JobsTable L js (some e)).1 = (JobsTable L' js' (some e)).1 :=
  ⟨rfl, rfl, rfl, rfl⟩

/-- C9, as the code has it. With no error, the row at each index is assembled from
the one record at that index of the sorted slice, in the column order decimal
identifier, status label, execution count as `renderJobs` writes it, memory, cpu,
elapsed time; the execution-count cell is the thousands-grouped count of every
record whose count is below 2^63. For a record of identifier 42, status `working`
and 1500 executions given before a record of identifier 7, the first row starts
with `7`, the second is the row of the record 42, with `1,500` executions and
`working` in green. -/
theorem WorkerTable_row_cells (L : Lib) (hL : SortContract L) (clock : Nat → Int)
    (workers : List process.State) (a b : process.State) :
    (∀ i : Nat, (WorkerTable L clock workers none).1.rows[i]? =
      (WorkerTable L clock workers none).2[i]?.map (fun w =>
        [Itoa w.Pid, renderStatus L w.StatusStr, renderJobs w.NumExecs, L.Bytes w.MemoryUsage,
          renderCPU w.CPUPercent, renderAlive L (clock i) w.Created])) ∧
    (∀ w ∈ workers, w.NumExecs < 2 ^ 63 →
      renderJobs w.NumExecs = String.mk (groupThousands (Nat.toDigits 10 w.NumExecs))) ∧
    (WorkerTable L clock [{ a with Pid := 42, StatusStr := "working", NumExecs := 1500 },
      { b with Pid := 7 }] none).1.rows =
      [["7", renderStatus L b.StatusStr, renderJobs b.NumExecs, L.Bytes b.MemoryUsage,
          renderCPU b.CPUPercent, renderAlive L (clock 0) b.Created],
        ["42", L.ColorString Color.FgGreen "working", "1,500", L.Bytes a.MemoryUsage,
          renderCPU a.CPUPercent, renderAlive L (clock 1) a.Created]] := by
  refine ⟨fun i => WorkerTable_row_at L clock workers i,
    fun w _ hw => String.ext (renderJobs_data w.NumExecs hw), ?_⟩
  have hs := perm_pair_sorted (fun x y => lessPid y x = false)
    { a with Pid := 42, StatusStr := "working", NumExecs := 1500 } { b with Pid := 7 } _
    (hL.1 _ lessPid) (hL.2 _ lessPid lessPid_asymm lessPid_negTrans) (by simp [lessPid])
  rw [WorkerTable_rows, hs]
  have e1 : Itoa 7 = "7" := by decide
  have e2 : Itoa 42 = "42" := by decide
  have e3 : renderJobs 1500 = "1,500" := by decide
  simp [workerRow, renderStatus, e1, e2, e3]

/-- Witness of C9: the two records of the example, with the library `ansiLib`. -/
theorem WorkerTable_row_cells_witness :
    (WorkerTable ansiLib (fun i => 100000000000 + i)
      [⟨42, 1500, 10000000000, 5, 0x4028B0A3D70A3D71, "", "working"⟩,
        ⟨7, 0, 0, 3, 0x3FF8000000000000, "", "ready"⟩] none).1.rows[1]? =
      some ["42", "\x1b[32mworking\x1b[0m", "1,500", "5 B", "12.35", "90 seconds ago"] ∧
    (WorkerTable ansiLib (fun i => 100000000000 + i)
      [⟨42, 1500, 10000000000, 5, 0x4028B0A3D70A3D71, "", "working"⟩,
        ⟨7, 0, 0, 3, 0x3FF8000000000000, "", "ready"⟩] none).1.rows[0]? =
      (WorkerTable ansiLib (fun i => 100000000000 + i)
        [⟨42, 1500, 10000000000, 5, 0x4028B0A3D70A3D71, "", "working"⟩,
          ⟨7, 0, 0, 3, 0x3FF8000000000000, "", "ready"⟩] none).2[0]?.map (fun w =>
        [Itoa w.Pid, renderStatus ansiLib w.StatusStr, renderJobs w.NumExecs,
          ansiLib.Bytes w.MemoryUsage, renderCPU w.CPUPercent,
          renderAlive ansiLib (100000000000 + (0 : Nat)) w.Created]) :=
  ⟨by decide, (WorkerTable_row_cells ansiLib ansiLib_sortContract (fun i => 100000000000 + i)
    [⟨42, 1500, 10000000000, 5, 0x4028B0A3D70A3D71, "", "working"⟩,
      ⟨7, 0, 0, 3, 0x3FF8000000000000, "", "ready"⟩]
    ⟨42, 1500, 10000000000, 5, 0x4028B0A3D70A3D71, "", "working"⟩
    ⟨7, 0, 0, 3, 0x3FF8000000000000, "", "ready"⟩).1 0⟩

/-- C9 fails as stated: a record with 9223372036854775808 executions gets the
execution-count cell `-9,223,372,036,854,775,808`, which is not the thousands-grouped
count `9,223,372,036,854,775,808`. -/
theorem WorkerTable_row_cells_counterexample :
    (WorkerTable ansiLib (fun _ => 0)
      [⟨1, 9223372036854775808, 0, 0, 0x3FF8000000000000, "", "ready"⟩] none).1.rows.map
        (fun r => r.getD 2 "") = ["-9,223,372,036,854,775,808"] ∧
    String.mk (groupThousands (Nat.toDigits 10 9223372036854775808)) =
      "9,223,372,036,854,775,808" ∧
    (WorkerTable ansiLib (fun _ => 0)
      [⟨1, 9223372036854775808, 0, 0, 0x3FF8000000000000, "", "ready"⟩] none).1.rows.map
        (fun r => r.getD 2 "") ≠
      [String.mk (groupThousands (Nat.toDigits 10 9223372036854775808))] := by
  decide

/-- C10. `ServiceWorkerTable` appends one row per record, in ascending order of
process identifier, each of exactly the four cells decimal identifier, memory, cpu
and the command string as it is. -/
theorem ServiceWorkerTable_rows (L : Lib) (hL : SortContract L) (workers : List process.State) :
    (ServiceWorkerTable L workers).1.rows.length = workers.length ∧
    (ServiceWorkerTable L workers).1.rows = (ServiceWorkerTable L workers).2.map
      (fun w => [Itoa w.Pid, L.Bytes w.MemoryUsage, renderCPU w.CPUPercent, w.Command]) ∧
    (ServiceWorkerTable L workers).2.Perm workers ∧
    ((ServiceWorkerTable L workers).2.map (fun w => w.Pid)).Pairwise (fun a b => a ≤ b) ∧
    ((ServiceWorkerTable L workers).1.rows.map (fun r => numeral (r.headD ""))).Pairwise
      (fun a b => a ≤ b) ∧
    (∀ r ∈ (ServiceWorkerTable L workers).1.rows, r.length = 4) ∧
    (ServiceWorkerTable L workers).1.header = ["PID", "Memory", "CPU%", "Command"] := by
  have hrows := ServiceWorkerTable_rows_eq L workers
  have hnum : (ServiceWorkerTable L workers).1.rows.map (fun r => numeral (r.headD "")) =
      (L.Slice workers lessPid).map (fun w => w.Pid) := by
    rw [hrows, List.map_map]
    apply List.map_congr_left
    intro w _
    simp [serviceRow, numeral_Itoa]
  refine ⟨?_, hrows, hL.1 workers lessPid, sorted_pids L hL workers, ?_, ?_, ?_⟩
  · rw [hrows, List.length_map, (hL.1 workers lessPid).length_eq]
  · rw [hnum]; exact sorted_pids L hL workers
  · rw [hrows]; intro r hr
    obtain ⟨w, _, rfl⟩ := List.mem_map.mp hr
    rfl
  · simp [ServiceWorkerTable, appendServices_header, NewTable, Table.Header]

/-- Witness of C10: two service processes given in descending order. -/
theorem ServiceWorkerTable_rows_witness :
    (ServiceWorkerTable ansiLib
      [⟨42, 0, 0, 5, 0x3FF8000000000000, "php worker.php", ""⟩,
      ⟨7, 0, 0, 3, 0x4028B0A3D70A3D71, "sleep 5", ""⟩]).1.rows =
      [["7", "3 B", "12.35", "sleep 5"], ["42", "5 B", "1.50", "php worker.php"]] ∧
    (ServiceWorkerTable ansiLib
      [⟨42, 0, 0, 5, 0x3FF8000000000000, "php worker.php", ""⟩,
      ⟨7, 0, 0, 3, 0x4028B0A3D70A3D71, "sleep 5", ""⟩]).1.rows.length =
      2 :=
  ⟨by decide, (ServiceWorkerTable_rows ansiLib ansiLib_sortContract
    [⟨42, 0, 0, 5, 0x3FF8000000000000, "php worker.php", ""⟩,
      ⟨7, 0, 0, 3, 0x4028B0A3D70A3D71, "sleep 5", ""⟩]).1⟩

/-- C11. With no error, the rows of `JobsTable` are, one per record of the sorted
slice and in this column order, ready label (`renderReady` of the flag), pipeline,
driver, queue (the record's strings as they are), active, delayed, reserved (the
decimal numerals of the counters, which read back give the counters); the slice is a
reordering of the input, so every row is that of one input record. -/
theorem JobsTable_row_cells (L : Lib) (hL : SortContract L) (js : List jobs.State) :
    (JobsTable L js none).1.rows = (JobsTable L js none).2.map (fun j =>
      [renderReady j.Ready, j.Pipeline, j.Driver, j.Queue, Itoa j.Active, Itoa j.Delayed,
        Itoa j.Reserved]) ∧
    (JobsTable L js none).2.Perm js ∧
    (∀ r ∈ (JobsTable L js none).1.rows, ∃ j ∈ js,
      r = [renderReady j.Ready, j.Pipeline, j.Driver, j.Queue, Itoa j.Active, Itoa j.Delayed,
        Itoa j.Reserved] ∧
      numeral (r.getD 4 "") = j.Active ∧ numeral (r.getD 5 "") = j.Delayed ∧
      numeral (r.getD 6 "") = j.Reserved) := by
  refine ⟨JobsTable_rows_eq L js, hL.1 js lessPipeline, ?_⟩
  intro r hr
  rw [JobsTable_rows_eq] at hr
  obtain ⟨j, hj, rfl⟩ := List.mem_map.mp hr
  refine ⟨j, (hL.1 js lessPipeline).mem_iff.mp hj, rfl, ?_, ?_, ?_⟩ <;>
    simp [jobRow, numeral_Itoa]

/-- Witness of C11: two queues given in descending order of pipeline name. -/
theorem JobsTable_row_cells_witness :
    (JobsTable ansiLib [⟨"emails", "amqp", "q1", 12, 0, 3, true⟩,
      ⟨"billing", "sqs", "q2", 0, 40, 0, false⟩] none).1.rows =
      [["PAUSED/STOPPED", "billing", "sqs", "q2", "0", "40", "0"],
        ["READY", "emails", "amqp", "q1", "12", "0", "3"]] ∧
    (JobsTable ansiLib [⟨"emails", "amqp", "q1", 12, 0, 3, true⟩,
      ⟨"billing", "sqs", "q2", 0, 40, 0, false⟩] none).2.Perm
      [⟨"emails", "amqp", "q1", 12, 0, 3, true⟩, ⟨"billing", "sqs", "q2", 0, 40, 0, false⟩] :=
  ⟨by decide, (JobsTable_row_cells ansiLib ansiLib_sortContract
    [⟨"emails", "amqp", "q1", 12, 0, 3, true⟩, ⟨"billing", "sqs", "q2", 0, 40, 0, false⟩]).2.1⟩

/-- C12. `renderReady` gives `READY` for true and `PAUSED/STOPPED` for false; its
output is always one of these two strings, and the two differ. -/
theorem renderReady_exhaustive :
    renderReady true = "READY" ∧ renderReady false = "PAUSED/STOPPED" ∧
    (∀ ready : Bool, renderReady ready = "READY" ∨ renderReady ready = "PAUSED/STOPPED") ∧
    renderReady true ≠ renderReady false := by
  refine ⟨rfl, rfl, ?_, by decide⟩
  intro ready
  cases ready
  · exact Or.inr rfl
  · exact Or.inl rfl

/-- C13. For an empty snapshot and no error each builder appends no row and sets
its header; the table of `WorkerTable` and of `JobsTable` is not the one their error
path builds, for any error. -/
theorem empty_snapshot_header_only (L : Lib) (hL : SortContract L) (clock : Nat → Int) :
    ((WorkerTable L clock [] none).1.rows = [] ∧
      (WorkerTable L clock [] none).1.header =
        ["PID", "Status", "Execs", "Memory", "CPU%", "Created"] ∧
      ∀ e : String, (WorkerTable L clock [] none).1 ≠ (WorkerTable L clock [] (some e)).1) ∧
    ((ServiceWorkerTable L []).1.rows = [] ∧
      (ServiceWorkerTable L []).1.header = ["PID", "Memory", "CPU%", "Command"]) ∧
    ((JobsTable L [] none).1.rows = [] ∧
      (JobsTable L [] none).1.header =
        ["Status", "Pipeline", "Driver", "Queue", "Active", "Delayed", "Reserved"] ∧
      ∀ e : String, (JobsTable L [] none).1 ≠ (JobsTable L [] (some e)).1) := by
  have hw : (WorkerTable L clock [] none).1.rows = [] := by
    rw [WorkerTable_rows, slice_nil L hL]; rfl
  have hs : (ServiceWorkerTable L []).1.rows = [] := by
    rw [ServiceWorkerTable_rows_eq, slice_nil L hL]; rfl
  have hj : (JobsTable L [] none).1.rows = [] := by
    rw [JobsTable_rows_eq, slice_nil L hL]; rfl
  refine ⟨⟨hw, ?_, ?_⟩, ⟨hs, ?_⟩, ⟨hj, ?_, ?_⟩⟩
  · simp [WorkerTable, appendWorkers_header, NewTable, Table.Header]
  · intro e h
    have := congrArg Table.rows h
    rw [hw] at this
    simp [WorkerTable, NewTable, Table.Header, Table.Append] at this
  · simp [ServiceWorkerTable, appendServices_header, NewTable, Table.Header]
  · simp [JobsTable, appendJobs_header, NewTable, Table.Header]
  · intro e h
    have := congrArg Table.rows h
    rw [hj] at this
    simp [JobsTable, NewTable, Table.Header, Table.Append] at this

/-- Witness of C13: the three tables built from empty snapshots with `ansiLib`. -/
theorem empty_snapshot_header_only_witness :
    (WorkerTable ansiLib (fun _ => 0) [] none).1.rows = [] ∧
    (ServiceWorkerTable ansiLib []).1.rows = [] ∧
    (JobsTable ansiLib [] none).1 =
      { config := jobsConfig,
        header := ["Status", "Pipeline", "Driver", "Queue", "Active", "Delayed", "Reserved"],
        rows := [] } :=
  ⟨(empty_snapshot_header_only ansiLib ansiLib_sortContract (fun _ => 0)).1.1,
    (empty_snapshot_header_only ansiLib ansiLib_sortContract (fun _ => 0)).2.1.1, by decide⟩

/-- C14, as the code has it. For every finite CPU value (a bit pattern whose
exponent field is not all ones), `renderCPU` returns a fixed two-decimal numeral: an
optional minus sign, digits, a point and exactly two digits, so no thousands
separator and no unit suffix. 0 gives `0.00` and 3.14159 gives `3.14`. -/
theorem renderCPU_two_decimals (cpu : Nat) (h : cpu / 2 ^ 52 % 2 ^ 11 ≠ 2047) :
    isFixed2 (renderCPU cpu) = true ∧
    renderCPU 0 = "0.00" ∧ renderCPU 0x400921F9F01B866E = "3.14" := by
  refine ⟨?_, renderCPU_zero, by decide⟩
  obtain ⟨neg, n, hn⟩ := FormatFloat_finite cpu h
  unfold renderCPU
  rw [hn]
  exact fixed2_data neg n

/-- Witness of C14 at the CPU value 12.345. -/
theorem renderCPU_two_decimals_witness :
    0x4028B0A3D70A3D71 / 2 ^ 52 % 2 ^ 11 ≠ 2047 ∧
    isFixed2 (renderCPU 0x4028B0A3D70A3D71) = true ∧ renderCPU 0x4028B0A3D70A3D71 = "12.35" :=
  ⟨by decide, (renderCPU_two_decimals 0x4028B0A3D70A3D71 (by decide)).1, by decide⟩

/-- C14 fails as stated: for the not-a-number value of bit pattern 7FF8000000000000
and for positive infinity, 7FF0000000000000, `renderCPU` returns `NaN` and `+Inf`,
which have no decimal point and no digit. -/
theorem renderCPU_counterexample :
    renderCPU 0x7FF8000000000000 = "NaN" ∧ renderCPU 0x7FF0000000000000 = "+Inf" ∧
    '.' ∉ (renderCPU 0x7FF8000000000000).data ∧
    isFixed2 (renderCPU 0x7FF8000000000000) = false ∧
    isFixed2 (renderCPU 0x7FF0000000000000) = false := by
  decide

/-- C15. With an error, the one row of `WorkerTable` is `0`, the message, and four
times `ERROR`: under the header, `0` stands in the PID column and the message in the
Status column, whatever the records are. -/
theorem WorkerTable_error_columns (L : Lib) (clock : Nat → Int) (workers : List process.State)
    (e : String) :
    (WorkerTable L clock workers (some e)).1.rows =
      [["0", e, "ERROR", "ERROR", "ERROR", "ERROR"]] ∧
    (WorkerTable L clock workers (some e)).1.rows.map
      (fun r => (WorkerTable L clock workers (some e)).1.header.zip r) =
      [[("PID", "0"), ("Status", e), ("Execs", "ERROR"), ("Memory", "ERROR"),
        ("CPU%", "ERROR"), ("Created", "ERROR")]] := by
  simp [WorkerTable, NewTable, Table.Header, Table.Append]

/-- C16. Two worker snapshots with no error that are reorderings of one another and
hold pairwise distinct process identifiers give, with the same clock, the same rows
in `WorkerTable` and in `ServiceWorkerTable` (and leave the same slice). -/
theorem rows_order_independent (L : Lib) (hL : SortContract L) (clock : Nat → Int)
    (ws1 ws2 : List process.State) (hp : ws1.Perm ws2)
    (hd : (ws1.map (fun w => w.Pid)).Nodup) :
    (WorkerTable L clock ws1 none).1.rows = (WorkerTable L clock ws2 none).1.rows ∧
    (ServiceWorkerTable L ws1).1.rows = (ServiceWorkerTable L ws2).1.rows ∧
    (WorkerTable L clock ws1 none).2 = (WorkerTable L clock ws2 none).2 ∧
    (ServiceWorkerTable L ws1).2 = (ServiceWorkerTable L ws2).2 := by
  have hs := slice_pid_unique L hL ws1 ws2 hp hd
  refine ⟨?_, ?_, hs, hs⟩
  · rw [WorkerTable_rows, WorkerTable_rows, hs]
  · rw [ServiceWorkerTable_rows_eq, ServiceWorkerTable_rows_eq, hs]

/-- Witness of C16: three records in two different orders. -/
theorem rows_order_independent_witness :
    (WorkerTable ansiLib (fun i => 100000000000 + i)
      [⟨42, 1500, 10000000000, 5, 0x4028B0A3D70A3D71, "a", "working"⟩,
        ⟨7, 0, 0, 3, 0x3FF8000000000000, "b", "ready"⟩,
        ⟨19, 2, 0, 3, 0x3FF8000000000000, "c", "ready"⟩] none).1.rows =
    (WorkerTable ansiLib (fun i => 100000000000 + i)
      [⟨19, 2, 0, 3, 0x3FF8000000000000, "c", "ready"⟩,
        ⟨42, 1500, 10000000000, 5, 0x4028B0A3D70A3D71, "a", "working"⟩,
        ⟨7, 0, 0, 3, 0x3FF8000000000000, "b", "ready"⟩] none).1.rows :=
  (rows_order_independent ansiLib ansiLib_sortContract (fun i => 100000000000 + i)
    [⟨42, 1500, 10000000000, 5, 0x4028B0A3D70A3D71, "a", "working"⟩,
      ⟨7, 0, 0, 3, 0x3FF8000000000000, "b", "ready"⟩,
      ⟨19, 2, 0, 3, 0x3FF8000000000000, "c", "ready"⟩]
    [⟨19, 2, 0, 3, 0x3FF8000000000000, "c", "ready"⟩,
      ⟨42, 1500, 10000000000, 5, 0x4028B0A3D70A3D71, "a", "working"⟩,
      ⟨7, 0, 0, 3, 0x3FF8000000000000, "b", "ready"⟩]
    (by decide) (by decide)).1

/-- C17. Every row a builder appends, with or without an error, has as many cells
as the header the builder sets: six for `WorkerTable`, four for `ServiceWorkerTable`,
seven for `JobsTable`. -/
theorem rows_match_header (L : Lib) (clock : Nat → Int) (workers : List process.State)
    (js : List jobs.State) (err : Option String) :
    ((WorkerTable L clock workers err).1.header.length = 6 ∧
      ∀ r ∈ (WorkerTable L clock workers err).1.rows,
        r.length = (WorkerTable L clock workers err).1.header.length) ∧
    ((ServiceWorkerTable L workers).1.header.length = 4 ∧
      ∀ r ∈ (ServiceWorkerTable L workers).1.rows,
        r.length = (ServiceWorkerTable L workers).1.header.length) ∧
    ((JobsTable L js err).1.header.length = 7 ∧
      ∀ r ∈ (JobsTable L js err).1.rows, r.length = (JobsTable L js err).1.header.length) := by
  have hwh : (WorkerTable L clock workers err).1.header.length = 6 := by
    cases err <;> simp [WorkerTable, appendWorkers_header, NewTable, Table.Header, Table.Append]
  have hsh : (ServiceWorkerTable L workers).1.header.length = 4 := by
    simp [ServiceWorkerTable, appendServices_header, NewTable, Table.Header]
  have hjh : (JobsTable L js err).1.header.length = 7 := by
    cases err <;> simp [JobsTable, appendJobs_header, NewTable, Table.Header, Table.Append]
  refine ⟨⟨hwh, ?_⟩, ⟨hsh, ?_⟩, ⟨hjh, ?_⟩⟩
  · intro r hr
    rw [hwh]
    cases err with
    | none =>
      rw [WorkerTable_rows] at hr
      obtain ⟨p, _, rfl⟩ := List.mem_map.mp hr
      rfl
    | some e =>
      simp [WorkerTable, NewTable, Table.Header, Table.Append] at hr
      subst hr; rfl
  · intro r hr
    rw [hsh]
    rw [ServiceWorkerTable_rows_eq] at hr
    obtain ⟨w, _, rfl⟩ := List.mem_map.mp hr
    rfl
  · intro r hr
    rw [hjh]
    cases err with
    | none =>
      rw [JobsTable_rows_eq] at hr
      obtain ⟨j, _, rfl⟩ := List.mem_map.mp hr
      rfl
    | some e =>
      simp [JobsTable, NewTable, Table.Header, Table.Append] at hr
      subst hr; rfl

end workers
